import Mathlib

/-!
Shallow embedding of the `duration` JavaScript library (the current revision,
which returns `Duration` instances from the static conversion functions).

JavaScript numbers are modelled as rationals (`ℚ`); the unit table, the
conversion walk, the concision search, rounding helpers and the string
rendering are translated function by function from the source.  JS-specific
coercions that the code actually exercises are modelled explicitly:
`precision || 2` (falsy fallback), the `typeof`-guarded option reads of the
`Duration` constructor, and the comparison `n >= null` at rank 7 (JS coerces
`null` to `0` in relational comparisons).
-/

/-- Models the `units[s].ref` lookup over the table's own keys: `some rank`
for one of the 8 unit keys, `none` otherwise.  This is exact for every
claim that quantifies over valid units.  The JS `in` operator additionally
matches keys inherited from `Object.prototype` (`toString`, `valueOf`, …),
for which `units[s]['ref']` is `undefined`; `protoKey` and `unitRankJS`
below model that refinement for the unrecognized-identifier behavior. -/
def unitRefOf (s : String) : Option Nat :=
  if s = "ms" then some 0
  else if s = "s" then some 1
  else if s = "min" then some 2
  else if s = "hr" then some 3
  else if s = "day" then some 4
  else if s = "wk" then some 5
  else if s = "mo" then some 6
  else if s = "yr" then some 7
  else none

/-- The `unit` field of `unitRefs[i]` (ranks 0–7; indices above 7 never occur
in the source and collapse to the last row). -/
def refUnitName : Nat → String
  | 0 => "ms"
  | 1 => "s"
  | 2 => "min"
  | 3 => "hr"
  | 4 => "day"
  | 5 => "wk"
  | 6 => "mo"
  | _ => "yr"

/-- The `next` field of `unitRefs[i]`: the scale factor from rank `i` to rank
`i+1`; `none` models the `null` entry of the year row. -/
def nextFactor : Nat → Option ℚ
  | 0 => some 1000
  | 1 => some 60
  | 2 => some 60
  | 3 => some 24
  | 4 => some 7
  | 5 => some (4345238 / 1000000)
  | 6 => some 12
  | _ => none

/-- Scale factor as a plain rational (`0` for the year row, mirroring the JS
arithmetic coercion of `null`; the loops in `convert` only read rows 0–6). -/
def fD (i : Nat) : ℚ := (nextFactor i).getD 0

/-- The `full` name of a unit key, from the `units` table. -/
def unitFull (s : String) : String :=
  if s = "ms" then "millisecond"
  else if s = "s" then "second"
  else if s = "min" then "minute"
  else if s = "hr" then "hour"
  else if s = "day" then "day"
  else if s = "wk" then "week"
  else if s = "mo" then "month"
  else if s = "yr" then "year"
  else ""

/-- The `abbr` name of a unit key, from the `units` table (it coincides with
the key for every row). -/
def unitAbbr (s : String) : String :=
  if unitRefOf s = none then "" else s

/-- Models `pluralize`: append "s" unless the string already ends in "s"
(`s.substr(-1) == 's'`). -/
def pluralize (s : String) : String :=
  if s.takeRight 1 = "s" then s else s ++ "s"

/-- Models JS `Math.round`: round half toward positive infinity. -/
def jsRound (v : ℚ) : ℤ := ⌊v + 1 / 2⌋

/-- Models `decimalRound(v, x)`: `Math.round(v)` when `x` is falsy, otherwise
shift the decimal point by `x` places via the exponent notation trick, round,
and shift back — semantically `round(v·10^x)/10^x`. -/
def decimalRound (v : ℚ) (x : ℤ) : ℚ :=
  if x = 0 then (jsRound v : ℚ) else (jsRound (v * 10 ^ x) : ℚ) / 10 ^ x

/-- Round half away from zero — the rounding mode the specification ascribes
to `decimalRound`; defined here only to compare against the source behavior. -/
def roundHalfAwayFromZero (v : ℚ) : ℤ :=
  if v < 0 then -(⌊-v + 1 / 2⌋) else ⌊v + 1 / 2⌋

/-- A JavaScript value passed in a `precision` position: `undefined`, a
number, or some non-number value carrying only its truthiness. -/
inductive PrecArg
  | undef
  | num (q : ℚ)
  | other (truthy : Bool)
deriving DecidableEq, Repr

/-- Models `precision = precision || 2`: falsy values (`undefined`, `0`,
falsy non-numbers) are replaced by `2`; truthy values pass through. -/
def precOr2 : PrecArg → PrecArg
  | PrecArg.undef => PrecArg.num 2
  | PrecArg.num q => if q = 0 then PrecArg.num 2 else PrecArg.num q
  | PrecArg.other t => if t then PrecArg.other true else PrecArg.num 2

/-- Models the constructor read
`typeof opts.precision == 'number' ? opts.precision : options.precision`
(the default `options.precision` is `2`). -/
def resolvePrec : PrecArg → ℚ
  | PrecArg.num q => q
  | _ => 2

/-- The options object accepted by the `Duration` constructor.  An absent
`precision` key and a present-but-`undefined` one behave identically in the
source (both fail the `typeof` test), so both are `PrecArg.undef`. -/
structure Opts where
  precision : PrecArg
  abbr : Option Bool
deriving DecidableEq, Repr

/-- The `Duration` instance state: `_duration`, `_unit`, `_precision`,
`_abbr`. -/
structure Duration where
  _duration : ℚ
  _unit : String
  _precision : ℚ
  _abbr : Bool
deriving DecidableEq, Repr

/-- Models `new Duration(n, b, opts)`:
`_duration = typeof n == 'number' ? n : 1`;
`_unit = b in units ? b : 'hr'`;
`_precision` from the `typeof`-guarded option read (default `2`);
`_abbr` from the `typeof`-guarded option read (default `true`). -/
def Duration.make (n : Option ℚ) (b : String) (opts : Option Opts) : Duration :=
  ⟨n.getD 1,
   if (unitRefOf b).isSome then b else "hr",
   match opts with
   | some o => resolvePrec o.precision
   | none => 2,
   match opts with
   | some o => o.abbr.getD true
   | none => true⟩

/-- The loop `while(du < cu) { cu--; n *= unitRefs[cu]['next']; }`, structural
on `cu` (the loop body cannot run once `cu = 0`). -/
def walkDown : ℚ → Nat → Nat → ℚ
  | n, 0, _ => n
  | n, c + 1, du => if du < c + 1 then walkDown (n * fD c) c du else n

/-- The loop `while(du > cu) { n /= unitRefs[cu]['next']; cu++; }`, encoded
structurally on the iteration count `du - cu` (the loop runs exactly that many
times). -/
def walkUpGap : ℚ → Nat → Nat → ℚ
  | n, _, 0 => n
  | n, cu, g + 1 => walkUpGap (n / fD cu) (cu + 1) g

/-- The ascending loop of `convert`, entered with ranks `cu < du`. -/
def walkUp (n : ℚ) (cu du : Nat) : ℚ := walkUpGap n cu (du - cu)

/-- Models the static `Duration.convert(n, from, to, precision)`:
apply `precision || 2`; resolve each unit with the
`(typeof u == 'string' && u in units) ? unitRef(u) : unitRef('hr')` fallback;
walk the scale chain down (multiplying) or up (dividing); and wrap the result
in `new Duration(n, unitRefs[du]['unit'], { precision: precision })`. -/
def Duration.convert (n : ℚ) (fromU toU : String) (precision : PrecArg) : Duration :=
  Duration.make
    (some
      (if (unitRefOf toU).getD 3 < (unitRefOf fromU).getD 3 then
        walkDown n ((unitRefOf fromU).getD 3) ((unitRefOf toU).getD 3)
      else if (unitRefOf fromU).getD 3 < (unitRefOf toU).getD 3 then
        walkUp n ((unitRefOf fromU).getD 3) ((unitRefOf toU).getD 3)
      else n))
    (refUnitName ((unitRefOf toU).getD 3))
    (some ⟨precOr2 precision, none⟩)

/-- Models the static `Duration.concise(n, u, p)` with an explicit fuel
parameter bounding the recursion depth (the source recursion is proved below
to need at most 7 steps, so fuel 8 — used by `Duration.concise` — is never
exhausted; the fuel-0 escape coincides with the base-case result).

Branches, mirroring the source:
`n < 1` and `ref <= 0` → return `new Duration(n, u, { precision: p })`;
`n < 1` otherwise → convert one rank finer and recurse with `p`;
`n >= max` (at rank 7 `max` is `null`, and JS evaluates `n >= null` as
`n >= 0`) and `ref >= 7` → return; `n >= max` otherwise → convert one rank
coarser and recurse WITHOUT passing `p` (the source omits it);
otherwise → return `new Duration(n, u, { precision: p })`. -/
def conciseFuel : Nat → ℚ → String → PrecArg → Duration
  | 0, n, u, p => Duration.make (some n) u (some ⟨p, none⟩)
  | fuel + 1, n, u, p =>
    if n < 1 then
      if (unitRefOf u).getD 3 ≤ 0 then Duration.make (some n) u (some ⟨p, none⟩)
      else
        conciseFuel fuel
          (Duration.convert n u (refUnitName ((unitRefOf u).getD 3 - 1)) p)._duration
          (Duration.convert n u (refUnitName ((unitRefOf u).getD 3 - 1)) p)._unit p
    else if (nextFactor ((unitRefOf u).getD 3)).getD 0 ≤ n then
      if 7 ≤ (unitRefOf u).getD 3 then Duration.make (some n) u (some ⟨p, none⟩)
      else
        conciseFuel fuel
          (Duration.convert n u (refUnitName ((unitRefOf u).getD 3 + 1)) p)._duration
          (Duration.convert n u (refUnitName ((unitRefOf u).getD 3 + 1)) p)._unit
          PrecArg.undef
    else Duration.make (some n) u (some ⟨p, none⟩)

/-- The static `Duration.concise(n, u, p)` (fuel 8 = one unit per table row;
sufficiency is proved below). -/
def Duration.concise (n : ℚ) (u : String) (p : PrecArg) : Duration :=
  conciseFuel 8 n u p

/-- The zero-argument (getter) call of the `duration()` accessor. -/
def Duration.duration (d : Duration) : ℚ := d._duration

/-- The zero-argument (getter) call of the `unit()` accessor. -/
def Duration.unit (d : Duration) : String := d._unit

/-- The `abbr(o)` setter call with a boolean argument. -/
def Duration.abbrSet (d : Duration) (o : Bool) : Duration :=
  ⟨d._duration, d._unit, d._precision, o⟩

/-- Models the instance method `to(u)`:
`Duration.convert(this._duration, this._unit, u, this._precision).abbr(this._abbr)`. -/
def Duration.to (d : Duration) (u : String) : Duration :=
  (Duration.convert d._duration d._unit u (PrecArg.num d._precision)).abbrSet d._abbr

/-- Decimal digits of the fractional part `r / den` (long division with
enough fuel for every magnitude the library produces; JS prints at most 17
significant digits). -/
def fracDigits : Nat → Nat → Nat → String
  | _, _, 0 => ""
  | r, den, f + 1 =>
    if r = 0 then "" else toString (r * 10 / den) ++ fracDigits (r * 10 % den) den f

/-- Decimal rendering of a rational, matching the JS number-to-string
conversion on the terminating decimals this library manipulates. -/
def jsNumToString (q : ℚ) : String :=
  if q.den = 1 then toString q.num
  else
    (if q < 0 then "-" else "") ++ toString (q.num.natAbs / q.den) ++ "." ++
      fracDigits (q.num.natAbs % q.den) q.den 20

/-- Models the instance method `toString(sep)`:
`sep = typeof sep == 'string' ? sep : " "` and render
`d + sep + pluralize(abbr ? units[u].abbr : units[u].full)`. -/
def Duration.toString (d : Duration) (sep : Option String) : String :=
  jsNumToString d._duration ++ sep.getD " " ++
    pluralize (if d._abbr then unitAbbr d._unit else unitFull d._unit)

/-- Product of the scale factors at ranks `a, a+1, …, b-1` (the closed form
of the conversion walks). -/
def prodFactors : Nat → Nat → ℚ
  | _, 0 => 1
  | a, b + 1 => if a < b + 1 then prodFactors a b * fD b else 1

/-- The own property names of `Object.prototype` in a standard JS
environment: for these strings `s in units` is true even though they are not
unit keys, because the object literal `units` inherits them. -/
def protoKey (s : String) : Bool :=
  s == "constructor" || s == "hasOwnProperty" || s == "isPrototypeOf" ||
  s == "propertyIsEnumerable" || s == "toLocaleString" || s == "toString" ||
  s == "valueOf" || s == "__proto__" || s == "__defineGetter__" ||
  s == "__defineSetter__" || s == "__lookupGetter__" || s == "__lookupSetter__"

/-- Models `(typeof(u) == 'string' && u in units) ? unitRef(u) : unitRef('hr')`
over the full string domain: an own unit key yields its rank; an inherited
`Object.prototype` key passes the `in` test but `units[s]['ref']` evaluates to
`undefined` (modelled `none`); every other string falls back to hour's
rank 3. -/
def unitRankJS (s : String) : Option Nat :=
  match unitRefOf s with
  | some r => some r
  | none => if protoKey s then none else some 3

/-- Models the static `Duration.convert` over the full JS string domain,
`none` meaning a thrown TypeError.  When either rank is `undefined` both
loop guards are false (comparisons with `undefined` are false), leaving `n`
unchanged; constructing the result reads `unitRefs[du]['unit']`, which
throws when `du` is `undefined`. -/
def convertJS (n : ℚ) (fromU toU : String) (precision : PrecArg) : Option Duration :=
  match unitRankJS toU with
  | none => none
  | some du =>
    some (Duration.make
      (some (match unitRankJS fromU with
        | some cu =>
          if du < cu then walkDown n cu du
          else if cu < du then walkUp n cu du else n
        | none => n))
      (refUnitName du)
      (some ⟨precOr2 precision, none⟩))

/-- Models the static `Duration.concise` over the full JS string domain,
`none` meaning a thrown TypeError: `concise` reads `unitRefs[ref].next`
immediately, which throws when `ref` is `undefined` (an inherited prototype
key); otherwise the search proceeds exactly as `Duration.concise` — every
recursive step passes canonical table names, so no later step can throw. -/
def conciseJS (n : ℚ) (u : String) (p : PrecArg) : Option Duration :=
  match unitRankJS u with
  | none => none
  | some _ => some (Duration.concise n u p)

theorem unitRefOf_le (u : String) (r : Nat) (h : unitRefOf u = some r) : r ≤ 7 := by
  unfold unitRefOf at h
  split_ifs at h <;> simp_all <;> omega

theorem valid_eq (u : String) (r : Nat) (h : unitRefOf u = some r) : u = refUnitName r := by
  unfold unitRefOf at h
  split_ifs at h <;> first
  | (simp only [Option.some.injEq] at h; subst h; assumption)
  | simp at h

theorem unitRefOf_refUnitName (r : Nat) (h : r ≤ 7) : unitRefOf (refUnitName r) = some r := by
  interval_cases r <;> rfl

theorem fD_pos (i : Nat) (h : i ≤ 6) : 0 < fD i := by
  interval_cases i <;> norm_num [fD, nextFactor]

theorem prodFactors_self (a : Nat) : prodFactors a a = 1 := by
  cases a with
  | zero => rfl
  | succ b => simp [prodFactors]

theorem prodFactors_pos (b : Nat) (hb : b ≤ 7) : ∀ a, 0 < prodFactors a b := by
  induction b with
  | zero => intro a; norm_num [prodFactors]
  | succ c ih =>
    intro a
    rw [prodFactors]
    split_ifs with hc
    · exact mul_pos (ih (by omega) a) (fD_pos c (by omega))
    · norm_num

theorem prodFactors_front (a b : Nat) (h : a < b) :
    prodFactors a b = fD a * prodFactors (a + 1) b := by
  induction b with
  | zero => omega
  | succ c ih =>
    rw [prodFactors]
    rcases Nat.lt_or_ge a c with hc | hc
    · rw [if_pos (by omega), ih hc, prodFactors, if_pos (by omega)]
      ring
    · have : a = c := by omega
      subst this
      rw [if_pos (by omega), prodFactors_self, prodFactors, if_neg (by omega)]
      ring

theorem walkDown_eq (cu : Nat) : ∀ n du, du ≤ cu → walkDown n cu du = n * prodFactors du cu := by
  induction cu with
  | zero =>
    intro n du h
    have : du = 0 := by omega
    subst this
    rw [walkDown, prodFactors_self, mul_one]
  | succ c ih =>
    intro n du h
    rw [walkDown]
    rcases Nat.lt_or_ge du (c + 1) with hc | hc
    · rw [if_pos hc, ih _ _ (by omega), prodFactors, if_pos hc]
      ring
    · have : du = c + 1 := by omega
      subst this
      rw [if_neg (by omega), prodFactors_self, mul_one]

theorem walkUpGap_eq (g : Nat) : ∀ n cu, walkUpGap n cu g = n / prodFactors cu (cu + g) := by
  induction g with
  | zero => intro n cu; rw [walkUpGap, Nat.add_zero, prodFactors_self, div_one]
  | succ g ih =>
    intro n cu
    have hadd : cu + 1 + g = cu + (g + 1) := by omega
    rw [walkUpGap, ih, div_div, hadd, ← prodFactors_front _ _ (by omega)]

theorem walkUp_eq (n : ℚ) (cu du : Nat) (h : cu ≤ du) :
    walkUp n cu du = n / prodFactors cu du := by
  have hadd : cu + (du - cu) = du := by omega
  rw [walkUp, walkUpGap_eq, hadd]

theorem convert_eq (n : ℚ) (fromU toU : String) (p : PrecArg) (cu du : Nat)
    (h1 : unitRefOf fromU = some cu) (h2 : unitRefOf toU = some du) :
    Duration.convert n fromU toU p =
      ⟨if du < cu then n * prodFactors du cu
        else if cu < du then n / prodFactors cu du else n,
       toU, resolvePrec (precOr2 p), true⟩ := by
  have hdu : du ≤ 7 := unitRefOf_le _ _ h2
  have hname : refUnitName du = toU := (valid_eq _ _ h2).symm
  rw [Duration.convert, h1, h2]
  simp only [Option.getD_some, Duration.make, unitRefOf_refUnitName du hdu,
    Option.isSome_some, if_true, hname, Option.getD_some]
  rcases Nat.lt_trichotomy du cu with h | h | h
  · simp only [if_pos h, walkDown_eq _ _ _ (Nat.le_of_lt h)]
    simp [h2]
  · subst h
    simp [h2]
  · simp only [if_pos h, if_neg (by omega : ¬ du < cu), walkUp_eq _ _ _ (Nat.le_of_lt h)]
    simp [h2]

theorem prodFactors_single (a : Nat) : prodFactors a (a + 1) = fD a := by
  rw [prodFactors, if_pos (by omega), prodFactors_self, one_mul]

theorem make_base_eq (n : ℚ) (r : Nat) (p : PrecArg) (h : r ≤ 7) :
    Duration.make (some n) (refUnitName r) (some ⟨p, none⟩) =
      ⟨n, refUnitName r, resolvePrec p, true⟩ := by
  rw [Duration.make]
  simp [unitRefOf_refUnitName r h]

theorem convert_down_one (n : ℚ) (r : Nat) (p : PrecArg) (h : r ≤ 6) :
    Duration.convert n (refUnitName (r + 1)) (refUnitName r) p =
      ⟨n * fD r, refUnitName r, resolvePrec (precOr2 p), true⟩ := by
  rw [convert_eq n _ _ p (r + 1) r (unitRefOf_refUnitName _ (by omega))
      (unitRefOf_refUnitName _ (by omega))]
  rw [if_pos (by omega), prodFactors_single]

theorem convert_up_one (n : ℚ) (r : Nat) (p : PrecArg) (h : r ≤ 6) :
    Duration.convert n (refUnitName r) (refUnitName (r + 1)) p =
      ⟨n / fD r, refUnitName (r + 1), resolvePrec (precOr2 p), true⟩ := by
  rw [convert_eq n _ _ p r (r + 1) (unitRefOf_refUnitName _ (by omega))
      (unitRefOf_refUnitName _ (by omega))]
  rw [if_neg (by omega), if_pos (by omega), prodFactors_single]

theorem concise_step_base_ms (f : Nat) (n : ℚ) (p : PrecArg) (h : n < 1) :
    conciseFuel (f + 1) n (refUnitName 0) p = ⟨n, "ms", resolvePrec p, true⟩ := by
  rw [conciseFuel, if_pos h, if_pos (by rw [unitRefOf_refUnitName 0 (by omega)]; rfl)]
  exact make_base_eq n 0 p (by omega)

theorem concise_step_down (f r : Nat) (n : ℚ) (p : PrecArg) (h : n < 1) (h1 : 1 ≤ r)
    (h7 : r ≤ 7) :
    conciseFuel (f + 1) n (refUnitName r) p =
      conciseFuel f (n * fD (r - 1)) (refUnitName (r - 1)) p := by
  rw [conciseFuel, if_pos h, unitRefOf_refUnitName r h7]
  rw [if_neg (by simp; omega)]
  have hc := convert_down_one n (r - 1) p (by omega)
  rw [show r - 1 + 1 = r by omega] at hc
  rw [Option.getD_some, hc]

theorem concise_step_base_yr (f : Nat) (n : ℚ) (p : PrecArg) (h : ¬ n < 1) :
    conciseFuel (f + 1) n (refUnitName 7) p = ⟨n, "yr", resolvePrec p, true⟩ := by
  rw [conciseFuel, if_neg h, unitRefOf_refUnitName 7 (by omega)]
  rw [if_pos (by show (nextFactor 7).getD 0 ≤ n; norm_num [nextFactor]; linarith)]
  rw [if_pos (by simp)]
  exact make_base_eq n 7 p (by omega)

theorem concise_step_up (f r : Nat) (n : ℚ) (p : PrecArg) (h : ¬ n < 1) (h6 : r ≤ 6)
    (hge : fD r ≤ n) :
    conciseFuel (f + 1) n (refUnitName r) p =
      conciseFuel f (n / fD r) (refUnitName (r + 1)) PrecArg.undef := by
  rw [conciseFuel, if_neg h, unitRefOf_refUnitName r (by omega)]
  rw [if_pos (by exact hge), if_neg (by simp; omega)]
  rw [Option.getD_some, convert_up_one n r p h6]

theorem concise_step_mid (f r : Nat) (n : ℚ) (p : PrecArg) (h : ¬ n < 1) (h7 : r ≤ 7)
    (hlt : ¬ fD r ≤ n) :
    conciseFuel (f + 1) n (refUnitName r) p = ⟨n, refUnitName r, resolvePrec p, true⟩ := by
  rw [conciseFuel, if_neg h, unitRefOf_refUnitName r h7, if_neg (by exact hlt)]
  exact make_base_eq n r p h7

theorem concise_down (r : Nat) (hr : r ≤ 7) : ∀ (n : ℚ) (p : PrecArg), n < 1 →
    ∃ k, k ≤ r ∧
      (∀ fuel, r < fuel → conciseFuel fuel n (refUnitName r) p =
        ⟨n * prodFactors k r, refUnitName k, resolvePrec p, true⟩) ∧
      (1 ≤ n * prodFactors k r ∨ k = 0) ∧
      n * prodFactors k r < fD k := by
  induction r with
  | zero =>
    intro n p h
    refine ⟨0, Nat.le_refl 0, ?_, Or.inr rfl, ?_⟩
    · intro fuel hfuel
      obtain ⟨f, rfl⟩ : ∃ f, fuel = f + 1 := ⟨fuel - 1, by omega⟩
      rw [concise_step_base_ms f n p h, prodFactors_self, mul_one]
      rfl
    · rw [prodFactors_self, mul_one]
      have : (0:ℚ) < 1000 := by norm_num
      calc n < 1 := h
        _ < 1000 := by norm_num
        _ = fD 0 := by norm_num [fD, nextFactor]
  | succ r ih =>
    intro n p h
    have hr6 : r ≤ 6 := by omega
    have hfpos : 0 < fD r := fD_pos r hr6
    by_cases hn' : n * fD r < 1
    · obtain ⟨k, hk, heq, hdisj, hlt⟩ := ih (by omega) (n * fD r) p hn'
      have hval : n * fD r * prodFactors k r = n * prodFactors k (r + 1) := by
        rw [prodFactors, if_pos (by omega)]
        ring
      refine ⟨k, by omega, ?_, ?_, ?_⟩
      · intro fuel hfuel
        obtain ⟨f, rfl⟩ : ∃ f, fuel = f + 1 := ⟨fuel - 1, by omega⟩
        rw [concise_step_down f (r + 1) n p h (by omega) (by omega)]
        simp only [Nat.add_sub_cancel]
        rw [heq f (by omega), hval]
      · rw [← hval]; exact hdisj
      · rw [← hval]; exact hlt
    · refine ⟨r, by omega, ?_, ?_, ?_⟩
      · intro fuel hfuel
        obtain ⟨f, rfl⟩ : ∃ f, fuel = f + 1 := ⟨fuel - 1, by omega⟩
        rw [concise_step_down f (r + 1) n p h (by omega) (by omega)]
        simp only [Nat.add_sub_cancel]
        obtain ⟨f', rfl⟩ : ∃ f', f = f' + 1 := ⟨f - 1, by omega⟩
        have hge : ¬ fD r ≤ n * fD r := by
          intro hc
          have : n * fD r < 1 * fD r := by
            exact mul_lt_mul_of_pos_right h hfpos
          rw [one_mul] at this
          linarith
        rw [concise_step_mid f' r (n * fD r) p hn' (by omega) hge]
        rw [prodFactors_single]
      · rw [prodFactors_single]
        exact Or.inl (not_lt.mp hn')
      · rw [prodFactors_single]
        have : n * fD r < 1 * fD r := mul_lt_mul_of_pos_right h hfpos
        linarith

theorem concise_up (g : Nat) : ∀ r, r + g = 7 → ∀ (n : ℚ) (p : PrecArg), ¬ n < 1 →
    ∃ k, r ≤ k ∧ k ≤ 7 ∧
      (∀ fuel, g < fuel → conciseFuel fuel n (refUnitName r) p =
        ⟨n / prodFactors r k, refUnitName k,
         resolvePrec (if k = r then p else PrecArg.undef), true⟩) ∧
      (k = 7 ∨ n / prodFactors r k < fD k) ∧
      1 ≤ n / prodFactors r k ∧
      (fD r ≤ n → r ≤ 6 → r < k) := by
  induction g with
  | zero =>
    intro r hr n p h
    have : r = 7 := by omega
    subst this
    refine ⟨7, Nat.le_refl 7, Nat.le_refl 7, ?_, Or.inl rfl, ?_, ?_⟩
    · intro fuel hfuel
      obtain ⟨f, rfl⟩ : ∃ f, fuel = f + 1 := ⟨fuel - 1, by omega⟩
      rw [concise_step_base_yr f n p h, prodFactors_self, div_one, if_pos rfl]
      rfl
    · rw [prodFactors_self, div_one]
      exact not_lt.mp h
    · intro _ hc
      omega
  | succ g ih =>
    intro r hr n p h
    have hr6 : r ≤ 6 := by omega
    have hfpos : 0 < fD r := fD_pos r hr6
    by_cases hge : fD r ≤ n
    · have hn' : ¬ (n / fD r) < 1 := by
        rw [not_lt, le_div_iff₀ hfpos, one_mul]
        exact hge
      obtain ⟨k, hk1, hk7, heq, hdisj, hge1, _⟩ := ih (r + 1) (by omega) (n / fD r)
        PrecArg.undef hn'
      have hval : n / fD r / prodFactors (r + 1) k = n / prodFactors r k := by
        rw [div_div, ← prodFactors_front r k (by omega)]
      refine ⟨k, by omega, hk7, ?_, ?_, ?_, fun _ _ => by omega⟩
      · intro fuel hfuel
        obtain ⟨f, rfl⟩ : ∃ f, fuel = f + 1 := ⟨fuel - 1, by omega⟩
        rw [concise_step_up f r n p h hr6 hge, heq f (by omega), hval]
        have hkne : ¬ k = r := by omega
        rw [if_neg hkne]
        have : (if k = r + 1 then PrecArg.undef else PrecArg.undef) = PrecArg.undef := by
          split <;> rfl
        rw [this]
      · rw [← hval]; exact hdisj
      · rw [← hval]; exact hge1
    · refine ⟨r, Nat.le_refl r, by omega, ?_, ?_, ?_, fun hc _ => absurd hc hge⟩
      · intro fuel hfuel
        obtain ⟨f, rfl⟩ : ∃ f, fuel = f + 1 := ⟨fuel - 1, by omega⟩
        rw [concise_step_mid f r n p h (by omega) hge, prodFactors_self, div_one, if_pos rfl]
      · rw [prodFactors_self, div_one]
        exact Or.inr (not_le.mp hge)
      · rw [prodFactors_self, div_one]
        exact not_lt.mp h

theorem nextFactor_eq (k : Nat) (h : k ≤ 6) : nextFactor k = some (fD k) := by
  interval_cases k <;> rfl

theorem make_bad (n : Option ℚ) (u : String) (opts : Option Opts) (h : unitRefOf u = none) :
    Duration.make n u opts = Duration.make n "hr" opts := by
  unfold Duration.make
  rw [h, show unitRefOf "hr" = some 3 from rfl]
  rfl

theorem convert_bad_from (n : ℚ) (u toU : String) (p : PrecArg) (h : unitRefOf u = none) :
    Duration.convert n u toU p = Duration.convert n "hr" toU p := by
  rw [Duration.convert, Duration.convert, h, show unitRefOf "hr" = some 3 from rfl]
  rfl

theorem conciseFuel_bad (fuel : Nat) (n : ℚ) (u : String) (p : PrecArg)
    (h : unitRefOf u = none) :
    conciseFuel fuel n u p = conciseFuel fuel n "hr" p := by
  cases fuel with
  | zero => exact make_bad _ _ _ h
  | succ f =>
    rw [conciseFuel, conciseFuel, h, show unitRefOf "hr" = some 3 from rfl]
    simp only [Option.getD_none, Option.getD_some]
    rw [convert_bad_from n u (refUnitName (3 - 1)) p h,
      convert_bad_from n u (refUnitName (3 + 1)) p h,
      make_bad (some n) u (some ⟨p, none⟩) h]

theorem ex_concise_90min (p : PrecArg) :
    Duration.concise 90 "min" p = ⟨3 / 2, "hr", 2, true⟩ := by
  rw [Duration.concise, show ("min" : String) = refUnitName 2 from rfl]
  rw [concise_step_up 7 2 90 p (by norm_num) (by omega)
    (by norm_num [fD, nextFactor])]
  rw [show (90 : ℚ) / fD 2 = 3 / 2 by norm_num [fD, nextFactor]]
  rw [concise_step_mid 6 3 (3 / 2) PrecArg.undef (by norm_num) (by omega)
    (by norm_num [fD, nextFactor])]
  rfl

theorem ex_concise_halfms (p : PrecArg) :
    Duration.concise (1 / 2) "ms" p = ⟨1 / 2, "ms", resolvePrec p, true⟩ := by
  rw [Duration.concise, show ("ms" : String) = refUnitName 0 from rfl]
  rw [concise_step_base_ms 7 (1 / 2) p (by norm_num)]
  rfl

theorem ex_concise_400yr (p : PrecArg) :
    Duration.concise 400 "yr" p = ⟨400, "yr", resolvePrec p, true⟩ := by
  rw [Duration.concise, show ("yr" : String) = refUnitName 7 from rfl]
  rw [concise_step_base_yr 7 400 p (by norm_num)]
  rfl

/-- Claim C1: `convert` walks the scale chain, multiplying by the factor at
each rank on the way down (`du < cu`), dividing at the current rank on the
way up (`du > cu`), and leaving `n` unchanged when `du == cu`; the walks have
the closed forms given by `prodFactors`, and in particular
`Duration.convert(1000, 'ms', 's')` yields magnitude `1` and unit `s`. -/
theorem claim_C1 (n : ℚ) (fromU toU : String) (p : PrecArg) (cu du : Nat)
    (h1 : unitRefOf fromU = some cu) (h2 : unitRefOf toU = some du) :
    ((Duration.convert n fromU toU p).duration =
      (if du < cu then n * prodFactors du cu
       else if cu < du then n / prodFactors cu du else n)) ∧
    (Duration.convert n fromU toU p).unit = toU ∧
    (Duration.convert 1000 "ms" "s" PrecArg.undef).duration = 1 ∧
    (Duration.convert 1000 "ms" "s" PrecArg.undef).unit = "s" := by
  rw [convert_eq n fromU toU p cu du h1 h2]
  rw [show ("ms" : String) = refUnitName 0 from rfl, show ("s" : String) = refUnitName 1 from rfl]
  rw [convert_up_one 1000 0 PrecArg.undef (by omega)]
  refine ⟨rfl, rfl, ?_, rfl⟩
  rw [Duration.duration]
  norm_num [fD, nextFactor]

/-- Claim C4: converting a magnitude from `u1` to `u2` and back is exact in
the real-number semantics (this version of `convert` applies no rounding),
hence the round-trip error is bounded by `10^-precision` for every
precision. -/
theorem claim_C4 (n : ℚ) (u1 u2 : String) (p1 p2 : PrecArg) (r1 r2 : Nat)
    (h1 : unitRefOf u1 = some r1) (h2 : unitRefOf u2 = some r2) (prec : Nat) :
    (Duration.convert (Duration.convert n u1 u2 p1).duration u2 u1 p2).duration = n ∧
    |(Duration.convert (Duration.convert n u1 u2 p1).duration u2 u1 p2).duration - n| ≤
      1 / 10 ^ prec := by
  have key : (Duration.convert (Duration.convert n u1 u2 p1).duration u2 u1 p2).duration = n := by
    rw [convert_eq n u1 u2 p1 r1 r2 h1 h2]
    dsimp only [Duration.duration]
    rw [convert_eq _ u2 u1 p2 r2 r1 h2 h1]
    dsimp only [Duration.duration]
    rcases Nat.lt_trichotomy r1 r2 with h | h | h
    · have hp : prodFactors r1 r2 ≠ 0 :=
        ne_of_gt (prodFactors_pos r2 (unitRefOf_le _ _ h2) r1)
      have t1 : ¬ r2 < r1 := by omega
      rw [if_pos h, if_neg t1, if_pos h]
      exact div_mul_cancel₀ n hp
    · subst h
      rw [if_neg (Nat.lt_irrefl r1), if_neg (Nat.lt_irrefl r1), if_neg (Nat.lt_irrefl r1),
        if_neg (Nat.lt_irrefl r1)]
    · have hp : prodFactors r2 r1 ≠ 0 :=
        ne_of_gt (prodFactors_pos r1 (unitRefOf_le _ _ h1) r2)
      have t1 : ¬ r1 < r2 := by omega
      rw [if_neg t1, if_pos h, if_pos h]
      exact mul_div_cancel_right₀ n hp
  refine ⟨key, ?_⟩
  rw [key, sub_self, abs_zero]
  positivity

/-- Claim C2: for non-negative `n` and a valid unit, `concise` lands either at
the millisecond rank, at the year rank, or at a unit where the value lies in
`[1, nextFactor)`; in particular `concise(90,'min')` is `1.5 hr`,
`concise(0.5,'ms')` is `0.5 ms`, and `concise(400,'yr')` is `400 yr`. -/
theorem claim_C2 (n : ℚ) (u : String) (p : PrecArg) (r : Nat) (hn : 0 ≤ n)
    (hu : unitRefOf u = some r) :
    (unitRefOf (Duration.concise n u p).unit = some 0 ∨
     unitRefOf (Duration.concise n u p).unit = some 7 ∨
     (1 ≤ (Duration.concise n u p).duration ∧
      ∃ f, nextFactor ((unitRefOf (Duration.concise n u p).unit).getD 3) = some f ∧
        (Duration.concise n u p).duration < f)) ∧
    (Duration.concise 90 "min" PrecArg.undef).duration = 3 / 2 ∧
    (Duration.concise 90 "min" PrecArg.undef).unit = "hr" ∧
    (Duration.concise (1 / 2) "ms" PrecArg.undef).duration = 1 / 2 ∧
    (Duration.concise (1 / 2) "ms" PrecArg.undef).unit = "ms" ∧
    (Duration.concise 400 "yr" PrecArg.undef).duration = 400 ∧
    (Duration.concise 400 "yr" PrecArg.undef).unit = "yr" := by
  have hr7 : r ≤ 7 := unitRefOf_le _ _ hu
  have hname : u = refUnitName r := valid_eq _ _ hu
  refine ⟨?_, ?_, ?_, ?_, ?_, ?_, ?_⟩
  · subst hname
    by_cases hlt : n < 1
    · obtain ⟨k, hk, heq, hdisj, hflt⟩ := concise_down r hr7 n p hlt
      rw [Duration.concise, heq 8 (by omega)]
      dsimp only [Duration.unit, Duration.duration]
      rcases Nat.eq_zero_or_pos k with hk0 | hkpos
      · subst hk0
        exact Or.inl (unitRefOf_refUnitName 0 (by omega))
      · rcases Nat.lt_or_ge k 7 with hk7 | hk7
        · refine Or.inr (Or.inr ⟨?_, fD k, ?_, hflt⟩)
          · rcases hdisj with hd | hd
            · exact hd
            · omega
          · rw [unitRefOf_refUnitName k (by omega), Option.getD_some,
              nextFactor_eq k (by omega)]
        · have : k = 7 := by omega
          subst this
          exact Or.inr (Or.inl (unitRefOf_refUnitName 7 (by omega)))
    · obtain ⟨k, hk1, hk7, heq, hdisj, hge1, _⟩ :=
        concise_up (7 - r) r (by omega) n p hlt
      rw [Duration.concise, heq 8 (by omega)]
      dsimp only [Duration.unit, Duration.duration]
      rcases Nat.lt_or_ge k 7 with hklt | hkge
      · refine Or.inr (Or.inr ⟨hge1, fD k, ?_, ?_⟩)
        · rw [unitRefOf_refUnitName k (by omega), Option.getD_some,
            nextFactor_eq k (by omega)]
        · rcases hdisj with hd | hd
          · omega
          · exact hd
      · have : k = 7 := by omega
        subst this
        exact Or.inr (Or.inl (unitRefOf_refUnitName 7 (by omega)))
  · rw [ex_concise_90min PrecArg.undef]
    rfl
  · rw [ex_concise_90min PrecArg.undef]
    rfl
  · rw [ex_concise_halfms PrecArg.undef]
    rfl
  · rw [ex_concise_halfms PrecArg.undef]
    rfl
  · rw [ex_concise_400yr PrecArg.undef]
    rfl
  · rw [ex_concise_400yr PrecArg.undef]
    rfl

/-- Claim C3: the concision recursion always terminates, needs at most the
distance to the boundary rank it walks toward (progress toward rank 0 when
`n < 1`, toward rank 7 otherwise), and 8 units of fuel — one per table row —
are always sufficient: every larger fuel gives the same result as
`Duration.concise`. -/
theorem claim_C3 (n : ℚ) (u : String) (p : PrecArg) (r : Nat)
    (hu : unitRefOf u = some r) :
    (∀ fuel, 8 ≤ fuel → conciseFuel fuel n u p = Duration.concise n u p) ∧
    (n < 1 → ∀ fuel, r < fuel → conciseFuel fuel n u p = Duration.concise n u p) ∧
    (¬ n < 1 → ∀ fuel, 7 - r < fuel → conciseFuel fuel n u p = Duration.concise n u p) := by
  have hr7 : r ≤ 7 := unitRefOf_le _ _ hu
  have hname : u = refUnitName r := valid_eq _ _ hu
  subst hname
  have main : ∀ fuel, (n < 1 → r < fuel) → (¬ n < 1 → 7 - r < fuel) →
      conciseFuel fuel n (refUnitName r) p = Duration.concise n (refUnitName r) p := by
    intro fuel hf1 hf2
    by_cases hlt : n < 1
    · obtain ⟨k, _, heq, _, _⟩ := concise_down r hr7 n p hlt
      rw [Duration.concise, heq fuel (hf1 hlt), heq 8 (by omega)]
    · obtain ⟨k, _, _, heq, _, _, _⟩ := concise_up (7 - r) r (by omega) n p hlt
      rw [Duration.concise, heq fuel (hf2 hlt), heq 8 (by omega)]
  refine ⟨?_, ?_, ?_⟩
  · intro fuel hf
    exact main fuel (fun _ => by omega) (fun _ => by omega)
  · intro hlt fuel hf
    exact main fuel (fun _ => hf) (fun hc => absurd hlt hc)
  · intro hge fuel hf
    exact main fuel (fun hc => absurd hc hge) (fun _ => hf)

/-- Claim C10: a negative magnitude is below 1 at every rank, so the search
walks finer at every step until millisecond: the result unit is `ms` and the
value is the input converted all the way down to milliseconds. -/
theorem claim_C10 (n : ℚ) (u : String) (p : PrecArg) (r : Nat)
    (hu : unitRefOf u = some r) (hn : n < 0) :
    (Duration.concise n u p).unit = "ms" ∧
    (Duration.concise n u p).duration = (Duration.convert n u "ms" p).duration := by
  have hr7 : r ≤ 7 := unitRefOf_le _ _ hu
  have hname : u = refUnitName r := valid_eq _ _ hu
  subst hname
  obtain ⟨k, hk, heq, hdisj, _⟩ := concise_down r hr7 n p (by linarith)
  have hk0 : k = 0 := by
    rcases hdisj with hd | hd
    · exfalso
      have hpos : 0 < prodFactors k r := prodFactors_pos r hr7 k
      nlinarith
    · exact hd
  subst hk0
  rw [Duration.concise, heq 8 (by omega)]
  rw [convert_eq n _ _ p r 0 (unitRefOf_refUnitName r hr7) (by rfl)]
  dsimp only [Duration.unit, Duration.duration]
  refine ⟨rfl, ?_⟩
  rcases Nat.eq_zero_or_pos r with hr0 | hrpos
  · subst hr0
    rw [if_neg (by omega), if_neg (by omega), prodFactors_self, mul_one]
  · rw [if_pos (by omega)]

/-- Counterexample to claim C5: `concise(90,'min',5)` takes one upward step,
which drops the requested precision, so the final Duration carries the
default precision 2 rather than the requested 5. -/
theorem counterexample_C5 :
    (Duration.concise 90 "min" (PrecArg.num 5))._precision = 2 ∧ (2 : ℚ) ≠ 5 := by
  rw [ex_concise_90min (PrecArg.num 5)]
  norm_num

/-- Claim C5 as amended: a numeric precision `p` is carried into the final
Duration when the search never moves coarser (the downward recursion and the
in-range base case thread `p` through), but the upward recursive call omits
`p`, so whenever at least one step toward a coarser unit is taken the final
Duration carries the default precision 2. -/
theorem claim_C5 (n : ℚ) (u : String) (q : ℚ) (p : PrecArg) (r : Nat)
    (hu : unitRefOf u = some r) :
    (n < 1 → (Duration.concise n u (PrecArg.num q))._precision = q) ∧
    (¬ n < 1 → ¬ fD r ≤ n → (Duration.concise n u (PrecArg.num q))._precision = q) ∧
    (¬ n < 1 → fD r ≤ n → r ≤ 6 → (Duration.concise n u p)._precision = 2) := by
  have hr7 : r ≤ 7 := unitRefOf_le _ _ hu
  have hname : u = refUnitName r := valid_eq _ _ hu
  subst hname
  refine ⟨?_, ?_, ?_⟩
  · intro hlt
    obtain ⟨k, _, heq, _, _⟩ := concise_down r hr7 n (PrecArg.num q) hlt
    rw [Duration.concise, heq 8 (by omega)]
    rfl
  · intro hge hmid
    rw [Duration.concise, show (8 : Nat) = 7 + 1 from rfl,
      concise_step_mid 7 r n (PrecArg.num q) hge hr7 hmid]
    rfl
  · intro hge hup h6
    obtain ⟨k, _, _, heq, _, _, hstep⟩ := concise_up (7 - r) r (by omega) n p hge
    rw [Duration.concise, heq 8 (by omega)]
    have : ¬ k = r := by
      have := hstep hup h6
      omega
    rw [if_neg this]
    rfl

/-- Counterexample to claim C6: `convert(1.5,'hr','hr',0)` does not round the
magnitude to the nearest integer (which would be `Math.round(1.5) = 2`): the
explicit precision 0 is falsy, falls back to the default 2, and this version
of `convert` never rounds the magnitude at all. -/
theorem counterexample_C6 :
    (Duration.convert (3 / 2) "hr" "hr" (PrecArg.num 0))._duration = 3 / 2 ∧
    (3 / 2 : ℚ) ≠ ((jsRound (3 / 2) : ℤ) : ℚ) ∧
    (Duration.convert (3 / 2) "hr" "hr" (PrecArg.num 0))._precision = 2 := by
  rw [convert_eq (3 / 2) "hr" "hr" (PrecArg.num 0) 3 3 rfl rfl]
  refine ⟨rfl, ?_, rfl⟩
  rw [show jsRound (3 / 2) = 2 by rw [jsRound, show (3 / 2 : ℚ) + 1 / 2 = ((2 : ℤ) : ℚ) by
    norm_num, Int.floor_intCast]]
  norm_num

/-- Claim C6 as amended: an explicit precision of 0 is falsy, so `convert`
replaces it with the default 2 (behaving exactly as if precision were
absent) and the resulting Duration carries precision 2; non-numeric or
absent precision likewise yields 2; `convert` never rounds the magnitude
(a same-unit conversion returns it untouched for every precision); only the
`decimalRound` helper — unused by `convert` in this version — rounds to the
nearest integer when its precision argument is falsy. -/
theorem claim_C6 (n v : ℚ) (fromU toU : String) (p : PrecArg) (t : Bool) :
    Duration.convert n fromU toU (PrecArg.num 0) = Duration.convert n fromU toU PrecArg.undef ∧
    (Duration.convert n fromU toU (PrecArg.num 0))._precision = 2 ∧
    (Duration.convert n fromU toU PrecArg.undef)._precision = 2 ∧
    (Duration.convert n fromU toU (PrecArg.other t))._precision = 2 ∧
    (Duration.convert n fromU fromU p)._duration = n ∧
    decimalRound v 0 = (jsRound v : ℚ) := by
  refine ⟨?_, ?_, ?_, ?_, ?_, ?_⟩
  · rw [Duration.convert, Duration.convert,
      show precOr2 (PrecArg.num 0) = precOr2 PrecArg.undef by norm_num [precOr2]]
  · rw [Duration.convert, Duration.make,
      show precOr2 (PrecArg.num 0) = PrecArg.num 2 by norm_num [precOr2]]
    rfl
  · rfl
  · rw [Duration.convert, Duration.make]
    cases t <;> rfl
  · rw [Duration.convert, Duration.make, if_neg (lt_irrefl _), if_neg (lt_irrefl _)]
    rfl
  · rw [decimalRound, if_pos rfl]

theorem convert_bad_to (n : ℚ) (fromU u : String) (p : PrecArg) (h : unitRefOf u = none) :
    Duration.convert n fromU u p = Duration.convert n fromU "hr" p := by
  rw [Duration.convert, Duration.convert, h, show unitRefOf "hr" = some 3 from rfl]
  rfl

theorem protoKey_unitRefOf (s : String) (h : protoKey s = true) : unitRefOf s = none := by
  unfold protoKey at h
  simp only [Bool.or_eq_true, beq_iff_eq] at h
  rcases h with (((((((((((h | h) | h) | h) | h) | h) | h) | h) | h) | h) | h) | h) <;>
    subst h <;> rfl

theorem unitRankJS_eq (s : String) (h : protoKey s = false) :
    unitRankJS s = some ((unitRefOf s).getD 3) := by
  unfold unitRankJS
  cases hu : unitRefOf s with
  | some r => rfl
  | none => rw [h]; rfl

theorem unitRankJS_proto (s : String) (h : protoKey s = true) : unitRankJS s = none := by
  unfold unitRankJS
  rw [protoKey_unitRefOf s h, h]
  rfl

theorem unitRankJS_name (d : Nat) (hd : d ≤ 7) : unitRankJS (refUnitName d) = some d := by
  unfold unitRankJS
  rw [unitRefOf_refUnitName d hd]

theorem convertJS_eq (n : ℚ) (fromU toU : String) (p : PrecArg)
    (h1 : protoKey fromU = false) (h2 : protoKey toU = false) :
    convertJS n fromU toU p = some (Duration.convert n fromU toU p) := by
  unfold convertJS
  rw [unitRankJS_eq fromU h1, unitRankJS_eq toU h2]
  rfl

theorem conciseJS_eq (n : ℚ) (u : String) (p : PrecArg) (h : protoKey u = false) :
    conciseJS n u p = some (Duration.concise n u p) := by
  unfold conciseJS
  rw [unitRankJS_eq u h]

/-- Counterexample to claim C7: `"toString"` is not a recognized unit
identifier, yet the JS `in` test matches it as an inherited
`Object.prototype` key, so the hour fallback never kicks in: `concise`
throws a TypeError on it (modelled `none`) instead of never failing, and
`convert(5,'toString','min')` skips both loops and returns magnitude 5
instead of behaving like `convert(5,'hr','min')` (which gives 300). -/
theorem counterexample_C7 :
    unitRefOf "toString" = none ∧
    conciseJS 5 "toString" PrecArg.undef = none ∧
    (conciseJS 5 "hr" PrecArg.undef).isSome = true ∧
    convertJS 5 "toString" "min" PrecArg.undef = some ⟨5, "min", 2, true⟩ ∧
    convertJS 5 "hr" "min" PrecArg.undef = some ⟨300, "min", 2, true⟩ ∧
    (⟨5, "min", 2, true⟩ : Duration) ≠ ⟨300, "min", 2, true⟩ := by
  refine ⟨rfl, rfl, rfl, rfl, ?_, ?_⟩
  · rw [convertJS_eq 5 "hr" "min" PrecArg.undef rfl rfl,
      convert_eq 5 "hr" "min" PrecArg.undef 3 2 rfl rfl]
    rw [if_pos (by omega)]
    rw [show (5 : ℚ) * prodFactors 2 3 = 300 by
      rw [show (3 : Nat) = 2 + 1 from rfl, prodFactors_single]
      norm_num [fD, nextFactor]]
    rfl
  · simp only [ne_eq, Duration.mk.injEq, not_and]
    intro h
    norm_num at h

/-- Claim C7 as amended: a string that is neither one of the 8 unit keys nor
an inherited `Object.prototype` property name is treated as `hr` on either
side of `convert` and by `concise`, with no failure; for an inherited
prototype name the `in` test wrongly succeeds and the rank is `undefined`:
`concise` throws, `convert` throws when such a name is the target unit, and
with such a name as the source unit `convert` skips both loops and returns
the magnitude unchanged; `convert(5,'bogus-unit','min')` still equals
`convert(5,'hr','min')`. -/
theorem claim_C7 (n : ℚ) (p : PrecArg) (bad fromU toU pto : String) (d : Nat)
    (hbad : unitRefOf bad = none) (hnp : protoKey bad = false)
    (hproto : protoKey pto = true) (hd : d ≤ 7) :
    Duration.convert n bad toU p = Duration.convert n "hr" toU p ∧
    Duration.convert n fromU bad p = Duration.convert n fromU "hr" p ∧
    Duration.concise n bad p = Duration.concise n "hr" p ∧
    convertJS n bad toU p = convertJS n "hr" toU p ∧
    convertJS n fromU bad p = convertJS n fromU "hr" p ∧
    conciseJS n bad p = conciseJS n "hr" p ∧
    (conciseJS n bad p).isSome = true ∧
    conciseJS n pto p = none ∧
    convertJS n fromU pto p = none ∧
    convertJS n pto (refUnitName d) p =
      some (Duration.make (some n) (refUnitName d) (some ⟨precOr2 p, none⟩)) ∧
    Duration.convert 5 "bogus-unit" "min" PrecArg.undef =
      Duration.convert 5 "hr" "min" PrecArg.undef := by
  have hbadrank : unitRankJS bad = some 3 := by
    unfold unitRankJS
    rw [hbad, hnp]
    rfl
  have hhr : unitRankJS "hr" = some 3 := rfl
  have hconc : Duration.concise n bad p = Duration.concise n "hr" p := by
    rw [Duration.concise, Duration.concise, conciseFuel_bad 8 n bad p hbad]
  refine ⟨convert_bad_from n bad toU p hbad, convert_bad_to n fromU bad p hbad, hconc,
    ?_, ?_, ?_, ?_, ?_, ?_, ?_, convert_bad_from 5 "bogus-unit" "min" PrecArg.undef rfl⟩
  · unfold convertJS
    rw [hbadrank, hhr]
  · unfold convertJS
    rw [hbadrank, hhr]
  · unfold conciseJS
    rw [hbadrank, hhr, hconc]
  · rw [conciseJS_eq n bad p hnp]
    rfl
  · unfold conciseJS
    rw [unitRankJS_proto pto hproto]
  · unfold convertJS
    rw [unitRankJS_proto pto hproto]
  · unfold convertJS
    rw [unitRankJS_proto pto hproto, unitRankJS_name d hd]

/-- Counterexample to claim C8: a negative exact half does not round away
from zero: `decimalRound(-0.25, 1)` shifts to `-2.5`, `Math.round` takes it
to `-2` (half toward positive infinity), giving `-0.2`, while
round-half-away-from-zero would give `-0.3`. -/
theorem counterexample_C8 :
    decimalRound (-(1 : ℚ) / 4) 1 = -(1 / 5) ∧
    decimalRound (-(1 : ℚ) / 4) 1 ≠
      ((roundHalfAwayFromZero ((-(1 : ℚ) / 4) * 10 ^ (1 : ℤ)) : ℤ) : ℚ) / 10 ^ (1 : ℤ) := by
  have h1 : decimalRound (-(1 : ℚ) / 4) 1 = -(1 / 5) := by
    rw [decimalRound, if_neg (by norm_num)]
    rw [show jsRound (-(1 : ℚ) / 4 * 10 ^ (1 : ℤ)) = -2 by
      rw [jsRound, show (-(1 : ℚ) / 4 * 10 ^ (1 : ℤ) + 1 / 2) = ((-2 : ℤ) : ℚ) by norm_num,
        Int.floor_intCast]]
    norm_num
  refine ⟨h1, ?_⟩
  rw [h1, show roundHalfAwayFromZero (-(1 : ℚ) / 4 * 10 ^ (1 : ℤ)) = -3 by
    rw [roundHalfAwayFromZero, if_pos (by norm_num)]
    rw [show (-(-(1 : ℚ) / 4 * 10 ^ (1 : ℤ)) + 1 / 2) = ((3 : ℤ) : ℚ) by norm_num,
      Int.floor_intCast]]
  norm_num

/-- Claim C8 as amended: `decimalRound` shifts the decimal point by `p`
places, rounds to the nearest integer with JS `Math.round` (half toward
positive infinity — which agrees with round-half-away-from-zero for
non-negative inputs), then shifts back; a negative exact half rounds toward
positive infinity; and `convert` in this version applies no rounding at all
(a same-unit conversion returns the magnitude untouched). -/
theorem claim_C8 (v : ℚ) (pz : ℤ) (hv : 0 ≤ v) :
    decimalRound v pz = ((roundHalfAwayFromZero (v * 10 ^ pz) : ℤ) : ℚ) / 10 ^ pz ∧
    jsRound (-(5 : ℚ) / 2) = -2 ∧
    (∀ (m : ℚ) (fromU : String) (p : PrecArg),
      (Duration.convert m fromU fromU p)._duration = m) := by
  have hpow : (0 : ℚ) < 10 ^ pz := zpow_pos (by norm_num) pz
  have hnn : ¬ v * 10 ^ pz < 0 := not_lt.mpr (mul_nonneg hv (le_of_lt hpow))
  refine ⟨?_, ?_, ?_⟩
  · rw [roundHalfAwayFromZero, if_neg hnn]
    by_cases hz : pz = 0
    · subst hz
      rw [decimalRound, if_pos rfl]
      norm_num [jsRound]
    · rw [decimalRound, if_neg hz]
      rfl
  · rw [jsRound, show (-(5 : ℚ) / 2 + 1 / 2) = ((-2 : ℤ) : ℚ) by norm_num, Int.floor_intCast]
  · intro m fromU p
    rw [Duration.convert, Duration.make, if_neg (lt_irrefl _), if_neg (lt_irrefl _)]
    rfl

/-- Claim C9: `toString` renders the magnitude, then the separator
(defaulting to a single space), then the pluralized unit name — abbreviated
or full according to the abbreviation flag, with an "s" appended unless the
name already ends in "s", unconditionally even for magnitude 1; in
particular `new Duration(1,'day').to('hr').toString()` is `"24 hrs"` and a
magnitude of exactly 1 still pluralizes (`"1 hrs"`). -/
theorem claim_C9 :
    (∀ (d : Duration) (sep : String), Duration.toString d (some sep) =
      jsNumToString d._duration ++ sep ++
        pluralize (if d._abbr then unitAbbr d._unit else unitFull d._unit)) ∧
    (∀ d : Duration, Duration.toString d none = Duration.toString d (some " ")) ∧
    (∀ s : String, pluralize s = if s.takeRight 1 = "s" then s else s ++ "s") ∧
    pluralize "hr" = "hrs" ∧
    pluralize "ms" = "ms" ∧
    ((Duration.make (some 1) "day" none).to "hr").toString none = "24 hrs" ∧
    (Duration.make (some 1) "hr" none).toString none = "1 hrs" := by
  refine ⟨fun d sep => rfl, fun d => rfl, fun s => rfl, rfl, rfl, ?_, ?_⟩
  · have h1 : Duration.make (some 1) "day" none = ⟨1, "day", 2, true⟩ := rfl
    have h2 : Duration.to ⟨1, "day", 2, true⟩ "hr" = ⟨24, "hr", 2, true⟩ := by
      rw [Duration.to]
      dsimp only
      rw [convert_eq 1 "day" "hr" (PrecArg.num 2) 4 3 rfl rfl]
      rw [if_pos (by omega)]
      rw [show (1 : ℚ) * prodFactors 3 4 = 24 by
        rw [show (4 : Nat) = 3 + 1 from rfl, prodFactors_single]
        norm_num [fD, nextFactor]]
      rfl
    rw [h1, h2]
    rfl
  · rfl

/-- Witness for claim C1 at the concrete input `convert(1000,'ms','s')`. -/
theorem claim_C1_witness : (Duration.convert 1000 "ms" "s" PrecArg.undef).duration = 1 :=
  (claim_C1 90 "min" "hr" PrecArg.undef 2 3 rfl rfl).2.2.1

/-- Witness for claim C2 at the concrete input `concise(90,'min')`. -/
theorem claim_C2_witness : (Duration.concise 90 "min" PrecArg.undef).duration = 3 / 2 :=
  (claim_C2 90 "min" PrecArg.undef 2 (by norm_num) rfl).2.1

/-- Witness for claim C3: fuel 9 agrees with fuel 8 on a concrete input. -/
theorem claim_C3_witness :
    conciseFuel 9 90 "min" PrecArg.undef = Duration.concise 90 "min" PrecArg.undef :=
  (claim_C3 90 "min" PrecArg.undef 2 rfl).1 9 (by norm_num)

/-- Witness for claim C4: the millisecond/second round trip of 90 is exact. -/
theorem claim_C4_witness :
    (Duration.convert (Duration.convert 90 "ms" "s" PrecArg.undef).duration "s" "ms"
      PrecArg.undef).duration = 90 :=
  (claim_C4 90 "ms" "s" PrecArg.undef PrecArg.undef 0 1 rfl rfl 2).1

/-- Witness for the amended claim C5: a downward search threads the
requested precision 5 into the final Duration. -/
theorem claim_C5_witness : (Duration.concise (1 / 2) "s" (PrecArg.num 5))._precision = 5 :=
  (claim_C5 (1 / 2) "s" 5 PrecArg.undef 1 rfl).1 (by norm_num)

/-- Witness for the amended claim C7 at the truly-absent unit string
"centuries" and the inherited prototype key "toString". -/
theorem claim_C7_witness :
    Duration.convert 7 "centuries" "min" PrecArg.undef =
      Duration.convert 7 "hr" "min" PrecArg.undef :=
  (claim_C7 7 PrecArg.undef "centuries" "s" "min" "toString" 2 rfl rfl rfl (by omega)).1

/-- Witness for the amended claim C8 at the non-negative input 0.25. -/
theorem claim_C8_witness :
    decimalRound (1 / 4) 1 =
      ((roundHalfAwayFromZero ((1 / 4 : ℚ) * 10 ^ (1 : ℤ)) : ℤ) : ℚ) / 10 ^ (1 : ℤ) :=
  (claim_C8 (1 / 4) 1 (by norm_num)).1

/-- Witness for claim C10 at the negative input `concise(-5,'hr')`. -/
theorem claim_C10_witness : (Duration.concise (-5) "hr" PrecArg.undef).unit = "ms" :=
  (claim_C10 (-5) "hr" PrecArg.undef 3 rfl (by norm_num)).1
